import Mathlib

/-!
# Verification of the resilient HTTP client core

Shallow embedding of the request-execution pipeline of the `resilient`
Go package: configuration and options, the retry decision `shouldRetry`,
the jittered exponential backoff `backoffDuration`, the adaptive
rate-reduction state machine (`reduceRateLimit` / restore timer /
`SetRateLimit` / `Close`), the `Retry-After` parser, and the attempt
loop of `Client.Do` together with its atomic counters.

Conventions:

* Go `int` / `int64` / `time.Duration` are modelled as `Int`
  (durations in nanoseconds); Go `float64` arithmetic is modelled
  exactly over `ℚ`; the Go conversion `time.Duration(f)` of a
  `float64` to `int64` truncates toward zero and is modelled by
  `truncToward0`.
* The HTTP transport, the random jitter source, context cancellation
  and the wall clock are external inputs, modelled as explicit
  parameters (`Env`, `u : ℚ`, `now : Int`, an abstract HTTP-date
  parser); so are the schedule of restore-timer callbacks and
  `Stop`-race outcomes (`TEvent`) and Go's implementation-dependent
  conversion of an infinite `float64` to an integer (`infDur`).
* Callbacks and hooks have no effect on the state modelled here and
  are omitted from the embedding.
-/

namespace Resilient

/-- An HTTP response as far as the retry pipeline inspects it:
its status code (`resp.StatusCode` in the source). -/
structure GoResponse where
  status : Int
deriving DecidableEq, Repr

/-- A transport-level error is opaque to the pipeline; only its
presence is inspected. -/
abbrev GoError := Unit

/-- Embedding of `config` from the options file: the fields the
execution pipeline reads.  `retryableStatus` embeds the Go
`map[int]bool` as its membership function; `retryPolicy` is the
optional custom predicate. -/
structure Config where
  rps : ℚ
  burst : Int
  maxRetries : Int
  /-- initial backoff, in nanoseconds -/
  initialBackoff : Int
  /-- adaptive cooldown, in nanoseconds -/
  adaptiveCooldown : Int
  /-- response body size cap, in bytes -/
  maxResponseSize : Int
  retryableStatus : Int → Bool
  retryPolicy : Option (Int → Option GoResponse → Option GoError → Bool)

/-- Embedding of `defaultConfig()`: rps 0 (pacing disabled), burst 1,
3 retries, 2 s initial backoff, 5 min cooldown, 10 MiB body cap,
retryable set {429, 503}, no custom policy. -/
def defaultConfig : Config where
  rps := 0
  burst := 1
  maxRetries := 3
  initialBackoff := 2000000000
  adaptiveCooldown := 300000000000
  maxResponseSize := 10 * 1024 * 1024
  retryableStatus := fun s => s == 429 || s == 503
  retryPolicy := none

/-- Embedding of the option `WithRateLimit(rps, burst)`: always store
`rps`; store `burst` only when it is positive. -/
def withRateLimit (rps : ℚ) (burst : Int) (c : Config) : Config :=
  { c with
    rps := rps
    burst := if 0 < burst then burst else c.burst }

/-- Embedding of `Client.shouldRetry`, mirroring the Go early
returns: the budget check, then the custom policy, then transport
errors, then status-set membership, else false. -/
def shouldRetry (cfg : Config) (attempt : Int) (resp : Option GoResponse)
    (err : Option GoError) : Bool :=
  if cfg.maxRetries ≤ attempt then
    false
  else
    match cfg.retryPolicy with
    | some p => p attempt resp err
    | none =>
      if err.isSome then
        true
      else
        match resp with
        | some r => cfg.retryableStatus r.status
        | none => false

/-- The five-step reference decision, written from the spec's words:
1. if `attempt ≥ maxRetries`, false; 2. a configured predicate's
result; 3. true on a non-null error; 4. membership of the response
status in the retryable set; 5. otherwise false. -/
def specShouldRetry (cfg : Config) (attempt : Int) (resp : Option GoResponse)
    (err : Option GoError) : Bool :=
  if attempt ≥ cfg.maxRetries then false
  else if h : cfg.retryPolicy.isSome then (cfg.retryPolicy.get h) attempt resp err
  else if err ≠ none then true
  else if h : resp.isSome then cfg.retryableStatus (resp.get h).status
  else false

/-- C1: for every attempt index, optional response and optional
error, the retry decision of the Client equals the five-step
reference definition from the spec. -/
theorem shouldRetry_eq_spec (cfg : Config) (attempt : Int)
    (resp : Option GoResponse) (err : Option GoError) :
    shouldRetry cfg attempt resp err = specShouldRetry cfg attempt resp err := by
  unfold shouldRetry specShouldRetry
  rcases le_or_lt cfg.maxRetries attempt with hle | hlt
  · simp [hle]
  · have h1 : ¬ cfg.maxRetries ≤ attempt := not_le.mpr hlt
    have h2 : ¬ attempt ≥ cfg.maxRetries := not_le.mpr hlt
    simp only [h1, if_false, h2, if_neg, ite_false]
    cases hp : cfg.retryPolicy with
    | some p => simp [hp]
    | none =>
      cases err with
      | some e => simp [hp]
      | none =>
        cases resp with
        | some r => simp [hp]
        | none => simp [hp]

/-! ## Backoff with jitter (`Client.backoffDuration`) -/

/-- Go's conversion of a `float64` to `int64` (`time.Duration(f)`)
truncates toward zero. -/
def truncToward0 (q : ℚ) : Int :=
  if q < 0 then -⌊-q⌋ else ⌊q⌋

/-- `base := c.cfg.initialBackoff * time.Duration(1<<(attempt-1))`,
integer nanoseconds.  (The source is only called with `attempt ≥ 1`;
a shift by `attempt-1 = -1` would panic in Go.) -/
def backoffBase (cfg : Config) (attempt : Nat) : Int :=
  cfg.initialBackoff * 2 ^ (attempt - 1)

/-- The computed delay before conversion back to a duration:
`float64(base) + jitter` with `jitter = float64(base) * 0.25 * (u*2 - 1)`,
where `u` is the value drawn from `rand.Float64()`, so `0 ≤ u < 1`. -/
def backoffPre (cfg : Config) (attempt : Nat) (u : ℚ) : ℚ :=
  (backoffBase cfg attempt : ℚ) + (backoffBase cfg attempt : ℚ) * (1/4) * (u * 2 - 1)

/-- Embedding of `Client.backoffDuration`: truncate the jittered
delay to whole nanoseconds; if the result is negative, clamp to
`initialBackoff`. -/
def backoffDuration (cfg : Config) (attempt : Nat) (u : ℚ) : Int :=
  let d := truncToward0 (backoffPre cfg attempt u)
  if d < 0 then cfg.initialBackoff else d

/-- A client with `initialBackoff = 2` ns (as set by
`WithRetry(3, 2)`). -/
def cfgC3 : Config := { defaultConfig with initialBackoff := 2 }

/-- C3 counterexample: with `initialBackoff = 2` ns, attempt 1 and
jitter draw `u = 0`, the computed delay is `3/2` ns and the returned
duration is its truncation `1` ns, which lies strictly below the
claimed lower bound `0.75 · initialBackoff · 2^(1−1) = 3/2`. -/
theorem backoffDuration_interval_counterexample :
    ¬ ((3/4 : ℚ) * (cfgC3.initialBackoff : ℚ) * 2 ^ (1 - 1) ≤
        (backoffDuration cfgC3 1 0 : ℚ)) := by
  have hpre : backoffPre cfgC3 1 0 = 3/2 := by
    norm_num [backoffPre, backoffBase, cfgC3, defaultConfig]
  have hfl : ⌊backoffPre cfgC3 1 0⌋ = 1 := by
    rw [hpre]; norm_num
  have htr : truncToward0 (backoffPre cfgC3 1 0) = 1 := by
    unfold truncToward0
    rw [if_neg (by rw [hpre]; norm_num), hfl]
  have hdur : backoffDuration cfgC3 1 0 = 1 := by
    unfold backoffDuration
    rw [htr]
    norm_num
  rw [hdur]
  norm_num [cfgC3, defaultConfig]

/-- C3 amended: for attempt `n ≥ 1`, jitter draw `u ∈ [0,1)` and a
positive `initialBackoff`, the pre-truncation delay lies in
`[0.75·base, 1.25·base)`; the returned duration, truncated to whole
nanoseconds, lies in `(0.75·base − 1, 1.25·base)`; and a negative
truncated delay is clamped to `initialBackoff`. -/
theorem backoffDuration_bounds (cfg : Config) (n : Nat) (u : ℚ)
    (hib : 0 < cfg.initialBackoff) (hu0 : 0 ≤ u) (hu1 : u < 1) :
    ((3/4 : ℚ) * (backoffBase cfg n : ℚ) ≤ backoffPre cfg n u ∧
      backoffPre cfg n u < (5/4 : ℚ) * (backoffBase cfg n : ℚ)) ∧
    ((3/4 : ℚ) * (backoffBase cfg n : ℚ) - 1 < (backoffDuration cfg n u : ℚ) ∧
      (backoffDuration cfg n u : ℚ) < (5/4 : ℚ) * (backoffBase cfg n : ℚ)) ∧
    (∀ (cfg' : Config) (m : Nat) (v : ℚ),
      truncToward0 (backoffPre cfg' m v) < 0 →
      backoffDuration cfg' m v = cfg'.initialBackoff) := by
  have hBpos : (0 : ℚ) < (backoffBase cfg n : ℚ) := by
    have : (0 : Int) < backoffBase cfg n := by
      have h2 : (0 : Int) < 2 ^ (n - 1) := by positivity
      exact mul_pos hib h2
    exact_mod_cast this
  set B : ℚ := (backoffBase cfg n : ℚ) with hB
  have hpre : backoffPre cfg n u = B + B * (1/4) * (u * 2 - 1) := rfl
  have hlow : (3/4 : ℚ) * B ≤ backoffPre cfg n u := by
    rw [hpre]; nlinarith
  have hhigh : backoffPre cfg n u < (5/4 : ℚ) * B := by
    rw [hpre]; nlinarith
  have hpre0 : (0 : ℚ) ≤ backoffPre cfg n u := le_trans (by nlinarith) hlow
  have htrunc : truncToward0 (backoffPre cfg n u) = ⌊backoffPre cfg n u⌋ := by
    unfold truncToward0
    rw [if_neg (not_lt.mpr hpre0)]
  have hfl0 : (0 : Int) ≤ ⌊backoffPre cfg n u⌋ := Int.floor_nonneg.mpr hpre0
  have hdur : backoffDuration cfg n u = ⌊backoffPre cfg n u⌋ := by
    unfold backoffDuration
    rw [htrunc, if_neg (not_lt.mpr hfl0)]
  refine ⟨⟨hlow, hhigh⟩, ⟨?_, ?_⟩, ?_⟩
  · rw [hdur]
    have h1 : backoffPre cfg n u - 1 < (⌊backoffPre cfg n u⌋ : ℚ) :=
      Int.sub_one_lt_floor _
    linarith
  · rw [hdur]
    have h1 : ((⌊backoffPre cfg n u⌋ : ℚ)) ≤ backoffPre cfg n u := Int.floor_le _
    linarith
  · intro cfg' m v hneg
    unfold backoffDuration
    rw [if_pos hneg]

/-- A client with `initialBackoff = 4` ns, for the witness. -/
def cfgW3 : Config := { defaultConfig with initialBackoff := 4 }

/-- Witness for the amended C3 bounds at `initialBackoff = 4` ns,
attempt 2, jitter draw `u = 1/2`. -/
theorem backoffDuration_bounds_witness :
    ((3/4 : ℚ) * (backoffBase cfgW3 2 : ℚ) ≤ backoffPre cfgW3 2 (1/2) ∧
      backoffPre cfgW3 2 (1/2) < (5/4 : ℚ) * (backoffBase cfgW3 2 : ℚ)) ∧
    ((3/4 : ℚ) * (backoffBase cfgW3 2 : ℚ) - 1 < (backoffDuration cfgW3 2 (1/2) : ℚ) ∧
      (backoffDuration cfgW3 2 (1/2) : ℚ) < (5/4 : ℚ) * (backoffBase cfgW3 2 : ℚ)) ∧
    (∀ (cfg' : Config) (m : Nat) (v : ℚ),
      truncToward0 (backoffPre cfg' m v) < 0 →
      backoffDuration cfg' m v = cfg'.initialBackoff) :=
  backoffDuration_bounds cfgW3 2 (1/2) (by decide) (by norm_num) (by norm_num)

/-! ## Adaptive throttler state
(`Client.reduceRateLimit`, the restore timer, `SetRateLimit`, `Close`) -/

/-- The limiter/adaptive portion of the `Client` guarded by its
mutex: the limiter (absent when pacing is disabled) with its current
rate and burst, the remembered original rate, the pending restore
timer (carrying the cooldown it was armed with) and the closed
flag. -/
structure AdaptState where
  limiter : Option ℚ
  limiterBurst : Int
  originalRate : ℚ
  timer : Option Int
  closed : Bool
deriving DecidableEq, Repr

/-- State built by `New`: a limiter iff `rps > 0`, `originalRate`
remembered unconditionally, no timer, not closed. -/
def initState (cfg : Config) : AdaptState where
  limiter := if 0 < cfg.rps then some cfg.rps else none
  limiterBurst := cfg.burst
  originalRate := cfg.rps
  timer := none
  closed := false

/-- Embedding of `Client.reduceRateLimit`: a no-op without a limiter
or after close; otherwise set the limit to `originalRate/2` floored
at `0.01`, stop any pending restore timer and arm a fresh one for the
full cooldown. -/
def reduceRateLimit (cfg : Config) (s : AdaptState) : AdaptState :=
  if s.limiter = none ∨ s.closed = true then s
  else
    let reduced : ℚ :=
      if s.originalRate / 2 < 1/100 then 1/100 else s.originalRate / 2
    { s with limiter := some reduced, timer := some cfg.adaptiveCooldown }

/-- The restore timer fires: the one-shot timer is spent, and under
the mutex the callback restores `originalRate` unless the client was
closed or the limiter is absent. -/
def restoreFire (s : AdaptState) : AdaptState :=
  let s' := { s with timer := none }
  if s'.closed = false ∧ s'.limiter ≠ none then
    { s' with limiter := some s'.originalRate }
  else s'

/-- Embedding of `Client.Close`: set the closed flag and stop the
pending restore timer. -/
def closeClient (s : AdaptState) : AdaptState :=
  { s with closed := true, timer := none }

/-- Embedding of `Client.SetRateLimit`: install or update the
limiter's rate and burst and overwrite `originalRate`; the restore
timer is left untouched. -/
def setRateLimit (rps : ℚ) (burst : Int) (s : AdaptState) : AdaptState :=
  { s with limiter := some rps, limiterBurst := burst, originalRate := rps }

/-- The interleaved operations that mutate the adaptive state. -/
inductive AdaptEvent where
  | reduce
  | fire
  | setRate (rps : ℚ) (burst : Int)
  | close

/-- One interleaving step; `fire` only has an effect while a timer is
actually pending. -/
def stepAdapt (cfg : Config) (s : AdaptState) : AdaptEvent → AdaptState
  | .reduce => reduceRateLimit cfg s
  | .fire => if s.timer.isSome then restoreFire s else s
  | .setRate r b => setRateLimit r b s
  | .close => closeClient s

/-- The reduced rate written by `reduceRateLimit` is the floored
half. -/
theorem reduced_eq_max (q : ℚ) :
    (if q / 2 < 1/100 then (1/100 : ℚ) else q / 2) = max (q / 2) (1/100) := by
  rcases lt_or_le (q / 2) (1/100 : ℚ) with h | h
  · rw [if_pos h, max_eq_right h.le]
  · rw [if_neg (not_lt.mpr h), max_eq_left h]

/-- The floored half is never the quarter. -/
theorem max_half_ne_quarter (q : ℚ) : max (q / 2) (1/100 : ℚ) ≠ q / 4 := by
  rcases le_or_lt (1/100 : ℚ) (q / 2) with h | h
  · rw [max_eq_left h]
    intro he
    have hq : q = 0 := by linarith
    rw [hq] at h
    norm_num at h
  · rw [max_eq_right h.le]
    intro he
    have hq : q = 1/25 := by linarith
    rw [hq] at h
    norm_num at h

/-- C4: with a limiter present and the client not closed, a
reduction sets the effective rate to `max(originalRate/2, 0.01)` and
arms the restore timer for the full cooldown; a second reduction
keeps that same rate — never the quarter — and re-arms the timer for
the full cooldown; firing the armed timer afterwards restores
`originalRate`; and a reduction is a no-op whenever pacing is
disabled or the client is closed. -/
theorem reduceRateLimit_adaptive (cfg : Config) (s : AdaptState) (r : ℚ)
    (hl : s.limiter = some r) (hc : s.closed = false) :
    ((reduceRateLimit cfg s).limiter = some (max (s.originalRate / 2) (1/100)) ∧
      (reduceRateLimit cfg s).timer = some cfg.adaptiveCooldown) ∧
    ((reduceRateLimit cfg (reduceRateLimit cfg s)).limiter
        = some (max (s.originalRate / 2) (1/100)) ∧
      (reduceRateLimit cfg (reduceRateLimit cfg s)).limiter
        ≠ some (s.originalRate / 4) ∧
      (reduceRateLimit cfg (reduceRateLimit cfg s)).timer
        = some cfg.adaptiveCooldown) ∧
    ((stepAdapt cfg (reduceRateLimit cfg s) AdaptEvent.fire).limiter
        = some s.originalRate) ∧
    (∀ s' : AdaptState, s'.limiter = none ∨ s'.closed = true →
      reduceRateLimit cfg s' = s') := by
  have hnone : ¬ (s.limiter = none ∨ s.closed = true) := by
    rw [hl, hc]; simp
  have h1 : reduceRateLimit cfg s =
      { s with limiter := some (max (s.originalRate / 2) (1/100)),
               timer := some cfg.adaptiveCooldown } := by
    unfold reduceRateLimit
    rw [if_neg hnone, reduced_eq_max]
  have hnone2 : ¬ ((reduceRateLimit cfg s).limiter = none ∨
      (reduceRateLimit cfg s).closed = true) := by
    rw [h1, hc]; simp
  have h2 : reduceRateLimit cfg (reduceRateLimit cfg s) =
      { s with limiter := some (max (s.originalRate / 2) (1/100)),
               timer := some cfg.adaptiveCooldown } := by
    rw [h1]
    unfold reduceRateLimit
    rw [if_neg (by simp [hc]), reduced_eq_max]
  refine ⟨⟨by rw [h1], by rw [h1]⟩,
          ⟨by rw [h2], ?_, by rw [h2]⟩, ?_, ?_⟩
  · rw [h2]
    intro hcontra
    exact max_half_ne_quarter s.originalRate (Option.some.inj hcontra)
  · rw [h1]
    unfold stepAdapt restoreFire
    simp [hc]
  · intro s' h'
    unfold reduceRateLimit
    rw [if_pos h']

/-- Witness for C4 at a fresh client with `rps = 100`. -/
theorem reduceRateLimit_adaptive_witness :
    ((reduceRateLimit defaultConfig (initState { defaultConfig with rps := 100 })).limiter
        = some (max ((initState { defaultConfig with rps := 100 }).originalRate / 2) (1/100)) ∧
      (reduceRateLimit defaultConfig (initState { defaultConfig with rps := 100 })).timer
        = some defaultConfig.adaptiveCooldown) ∧
    ((reduceRateLimit defaultConfig (reduceRateLimit defaultConfig
        (initState { defaultConfig with rps := 100 }))).limiter
        = some (max ((initState { defaultConfig with rps := 100 }).originalRate / 2) (1/100)) ∧
      (reduceRateLimit defaultConfig (reduceRateLimit defaultConfig
        (initState { defaultConfig with rps := 100 }))).limiter
        ≠ some ((initState { defaultConfig with rps := 100 }).originalRate / 4) ∧
      (reduceRateLimit defaultConfig (reduceRateLimit defaultConfig
        (initState { defaultConfig with rps := 100 }))).timer
        = some defaultConfig.adaptiveCooldown) ∧
    ((stepAdapt defaultConfig (reduceRateLimit defaultConfig
        (initState { defaultConfig with rps := 100 })) AdaptEvent.fire).limiter
        = some (initState { defaultConfig with rps := 100 }).originalRate) ∧
    (∀ s' : AdaptState, s'.limiter = none ∨ s'.closed = true →
      reduceRateLimit defaultConfig s' = s') :=
  reduceRateLimit_adaptive defaultConfig (initState { defaultConfig with rps := 100 })
    100 (by norm_num [initState, defaultConfig]) rfl

/-! ## Restore-timer lifecycle

`time.Timer.Stop` prevents the restore callback only when it is
called before the timer has expired.  An expired `AfterFunc` whose
callback goroutine is blocked on `c.mu` survives the `Stop` issued by
a concurrent `reduceRateLimit` re-arm, and the callback body
(client.go, inside `reduceRateLimit`) has no staleness check: it
restores `originalRate` whenever the client is not closed and a
limiter exists.  The refined model therefore tracks the number of
restore callbacks that may still run (`pending`), and lets each
`Stop` either succeed (caught in time) or fail (already expired),
as chosen by the interleaving. -/

/-- The limiter/adaptive state with the set of outstanding restore
callbacks abstracted to their count: `pending` counts callbacks of
armed or expired-but-unstopped timers that may still run. -/
structure TimerState where
  limiter : Option ℚ
  limiterBurst : Int
  originalRate : ℚ
  pending : Nat
  closed : Bool
deriving DecidableEq, Repr

/-- State built by `New` in the refined model. -/
def timerInit (cfg : Config) : TimerState where
  limiter := if 0 < cfg.rps then some cfg.rps else none
  limiterBurst := cfg.burst
  originalRate := cfg.rps
  pending := 0
  closed := false

/-- `reduceRateLimit` in the refined model: reduce the rate, `Stop`
the previous timer — `stopOk` says whether the `Stop` caught it
before expiry; when it did not, that callback will still run — and
arm a fresh timer (one more pending callback). -/
def tReduce (stopOk : Bool) (s : TimerState) : TimerState :=
  if s.limiter = none ∨ s.closed = true then s
  else
    let reduced : ℚ :=
      if s.originalRate / 2 < 1/100 then 1/100 else s.originalRate / 2
    let p := if stopOk ∧ 0 < s.pending then s.pending - 1 else s.pending
    { s with limiter := some reduced, pending := p + 1 }

/-- One outstanding restore callback runs (under the mutex, with no
staleness check): unless the client is closed or the limiter is
absent, the rate is set back to `originalRate`. -/
def tCallback (s : TimerState) : TimerState :=
  if s.pending = 0 then s
  else
    let t := { s with pending := s.pending - 1 }
    if t.closed = false ∧ t.limiter ≠ none then
      { t with limiter := some t.originalRate }
    else t

/-- `Close` in the refined model: set the closed flag and `Stop` the
current timer (which again may come too late). -/
def tClose (stopOk : Bool) (s : TimerState) : TimerState :=
  { s with closed := true,
           pending := if stopOk ∧ 0 < s.pending then s.pending - 1 else s.pending }

/-- `SetRateLimit` in the refined model: overwrite rate, burst and
`originalRate`; outstanding timers are untouched. -/
def tSetRate (rps : ℚ) (burst : Int) (s : TimerState) : TimerState :=
  { s with limiter := some rps, limiterBurst := burst, originalRate := rps }

/-- The interleaved operations, with the `Stop` outcomes chosen by
the schedule. -/
inductive TEvent where
  | reduce (stopOk : Bool)
  | callback
  | setRate (rps : ℚ) (burst : Int)
  | close (stopOk : Bool)

def tStep (s : TimerState) : TEvent → TimerState
  | .reduce b => tReduce b s
  | .callback => tCallback s
  | .setRate r b => tSetRate r b s
  | .close b => tClose b s

/-- The refined adaptive state reached from a fresh client after a
sequence of interleaved operations. -/
def tRun (cfg : Config) (evs : List TEvent) : TimerState :=
  evs.foldl tStep (timerInit cfg)

/-- The spec's adaptive invariant over the refined model: while a
restore is scheduled the effective rate is strictly below
`originalRate`; with nothing scheduled and the client not closed it
equals `originalRate`. -/
def timerInvariant (s : TimerState) : Prop :=
  (0 < s.pending → ∀ r, s.limiter = some r → r < s.originalRate) ∧
  (s.pending = 0 → s.closed = false → ∀ r, s.limiter = some r → r = s.originalRate)

/-- A client paced at 100 tokens/second. -/
def cfgT5 : Config := { defaultConfig with rps := 100 }

/-- C5 counterexample: with `originalRate = 100`, no `SetRateLimit`
and no close, the interleaving reduce → reduce (whose `Stop` comes
after the first timer expired, its callback blocked on the mutex) →
stale callback reaches a state where a restore timer is still armed
but the effective rate is `originalRate`, not strictly below it. -/
theorem timerInvariant_counterexample :
    ¬ timerInvariant
      (tRun cfgT5 [TEvent.reduce true, TEvent.reduce false, TEvent.callback]) := by
  have h0 : timerInit cfgT5 =
      { limiter := some 100, limiterBurst := 1, originalRate := 100,
        pending := 0, closed := false } := by
    unfold timerInit
    norm_num [cfgT5, defaultConfig]
  have h1 : tReduce true (timerInit cfgT5) =
      { limiter := some 50, limiterBurst := 1, originalRate := 100,
        pending := 1, closed := false } := by
    rw [h0]
    unfold tReduce
    norm_num
    simp
  have h2 : tReduce false (tReduce true (timerInit cfgT5)) =
      { limiter := some 50, limiterBurst := 1, originalRate := 100,
        pending := 2, closed := false } := by
    rw [h1]
    unfold tReduce
    norm_num
    simp
  have hs : tRun cfgT5 [TEvent.reduce true, TEvent.reduce false, TEvent.callback] =
      { limiter := some 100, limiterBurst := 1, originalRate := 100,
        pending := 1, closed := false } := by
    show tCallback (tReduce false (tReduce true (timerInit cfgT5))) = _
    rw [h2]
    unfold tCallback
    norm_num
    simp
  intro h
  have h1 := h.1 (by rw [hs]; norm_num) 100 (by rw [hs])
  rw [hs] at h1
  norm_num at h1

/-- True of the operations other than `SetRateLimit`. -/
def notSetRateT : TEvent → Prop
  | .setRate _ _ => False
  | _ => True

instance (e : TEvent) : Decidable (notSetRateT e) := by
  cases e <;> simp only [notSetRateT] <;> infer_instance

/-- What actually holds of the reachable states: the rate is either
`originalRate` or the reduced value, and quiescence (no outstanding
callback, not closed) implies the original rate. -/
def timerRateOk (s : TimerState) : Prop :=
  (∀ r, s.limiter = some r →
    r = s.originalRate ∨ r = max (s.originalRate / 2) (1/100)) ∧
  (s.pending = 0 → s.closed = false → ∀ r, s.limiter = some r → r = s.originalRate)

theorem timerInit_timerRateOk (cfg : Config) : timerRateOk (timerInit cfg) := by
  constructor
  · intro r hr
    unfold timerInit at hr
    simp only at hr
    by_cases h0 : 0 < cfg.rps
    · rw [if_pos h0] at hr
      exact Or.inl (Option.some.inj hr).symm
    · rw [if_neg h0] at hr
      exact absurd hr (by simp)
  · intro _ _ r hr
    unfold timerInit at hr
    simp only at hr
    by_cases h0 : 0 < cfg.rps
    · rw [if_pos h0] at hr
      exact (Option.some.inj hr).symm
    · rw [if_neg h0] at hr
      exact absurd hr (by simp)

theorem tStep_timerRateOk (s : TimerState) (e : TEvent)
    (hok : timerRateOk s) (he : notSetRateT e) : timerRateOk (tStep s e) := by
  obtain ⟨hdich, hquiet⟩ := hok
  cases e with
  | setRate r b => exact absurd he (by simp [notSetRateT])
  | close b =>
    refine ⟨hdich, ?_⟩
    intro _ hcl
    exact absurd hcl (by simp [tStep, tClose])
  | reduce b =>
    show timerRateOk (tReduce b s)
    by_cases hskip : s.limiter = none ∨ s.closed = true
    · unfold tReduce
      rw [if_pos hskip]
      exact ⟨hdich, hquiet⟩
    · unfold tReduce
      rw [if_neg hskip, reduced_eq_max]
      constructor
      · intro r hr
        exact Or.inr (Option.some.inj hr).symm
      · intro hp
        exact absurd hp (by simp)
  | callback =>
    show timerRateOk (tCallback s)
    unfold tCallback
    by_cases hp : s.pending = 0
    · rw [if_pos hp]
      exact ⟨hdich, hquiet⟩
    · rw [if_neg hp]
      by_cases hcond : s.closed = false ∧ s.limiter ≠ none
      · rw [if_pos hcond]
        constructor
        · intro r hr
          exact Or.inl (Option.some.inj hr).symm
        · intro _ _ r hr
          exact (Option.some.inj hr).symm
      · rw [if_neg hcond]
        refine ⟨hdich, ?_⟩
        intro _ hcl r hr
        rcases not_and_or.mp hcond with hcl2 | hlim
        · exact absurd hcl hcl2
        · rw [not_not.mp hlim] at hr
          exact absurd hr (by simp)

/-- C5 amended: `SetRateLimit` aside (it overwrites `originalRate`
without touching outstanding timers), in every reachable state of
the refined model — where a `Stop` that loses the race leaves the
old callback to run with no staleness check — the effective rate is
always `originalRate` or the reduced `max(originalRate/2, 0.01)`;
whenever no restore callback is outstanding and the client is not
closed, the rate is exactly `originalRate`; and whenever a restore
callback runs on a non-closed client with a limiter, it sets the
rate back to `originalRate`.  The claimed strict reduction while a
restore is scheduled is false of the code (stale-callback
counterexample above, and the 0.01 floor at rates ≤ 0.01). -/
theorem timerRate_reachable (cfg : Config) (evs : List TEvent)
    (hno : ∀ e ∈ evs, notSetRateT e) :
    timerRateOk (tRun cfg evs) ∧
    (∀ s : TimerState, 0 < s.pending → s.closed = false → s.limiter ≠ none →
      (tCallback s).limiter = some s.originalRate) := by
  constructor
  · suffices h : ∀ (l : List TEvent) (s : TimerState), timerRateOk s →
        (∀ e ∈ l, notSetRateT e) → timerRateOk (l.foldl tStep s) by
      exact h evs (timerInit cfg) (timerInit_timerRateOk cfg) hno
    intro l
    induction l with
    | nil => intro s hs _; exact hs
    | cons e t ih =>
      intro s hs hl
      exact ih (tStep s e)
        (tStep_timerRateOk s e hs (hl e (List.mem_cons_self e t)))
        (fun e2 he2 => hl e2 (List.mem_cons_of_mem e he2))
  · intro s hp hcl hlim
    unfold tCallback
    rw [if_neg (by omega)]
    rw [if_pos ⟨hcl, hlim⟩]

/-- Witness for the amended C5 at `rps = 100` with a
reduce-then-callback interleaving. -/
theorem timerRate_reachable_witness :
    timerRateOk (tRun { defaultConfig with rps := 100 }
      [TEvent.reduce true, TEvent.callback]) ∧
    (∀ s : TimerState, 0 < s.pending → s.closed = false → s.limiter ≠ none →
      (tCallback s).limiter = some s.originalRate) :=
  timerRate_reachable { defaultConfig with rps := 100 }
    [TEvent.reduce true, TEvent.callback]
    (by intro e he; fin_cases he <;> trivial)

/-! ## `parseRetryAfter` -/

/-- The characters trimmed by `strings.TrimSpace`: the full Go
`unicode.IsSpace` (White_Space) set — the ASCII spaces, NEL, NBSP,
OGHAM SPACE MARK, the U+2000–U+200A spaces, LINE and PARAGRAPH
SEPARATOR, NARROW NO-BREAK SPACE, MEDIUM MATHEMATICAL SPACE and
IDEOGRAPHIC SPACE. -/
def isSpaceChar (c : Char) : Bool :=
  c == ' ' || c == '\t' || c == '\n' || c == '\x0B' || c == '\x0C' || c == '\r' ||
    c == '\u0085' || c == '\u00A0' || c == '\u1680' ||
    (decide ('\u2000' ≤ c) && decide (c ≤ '\u200A')) ||
    c == '\u2028' || c == '\u2029' || c == '\u202F' || c == '\u205F' || c == '\u3000'

/-- Embedding of `strings.TrimSpace`: drop white space from both
ends. -/
def trimSpace (s : String) : String :=
  String.mk (List.rdropWhile isSpaceChar (s.data.dropWhile isSpaceChar))

/-- Lower-case an ASCII letter, as `strconv`'s `lower` does on the
bytes it inspects. -/
def lowerChar (c : Char) : Char :=
  if 'A' ≤ c ∧ c ≤ 'Z' then Char.ofNat (c.toNat + 32) else c

def isHexLetter (c : Char) : Bool :=
  decide ('a' ≤ lowerChar c) && decide (lowerChar c ≤ 'f')

def isHexDigitCh (c : Char) : Bool :=
  c.isDigit || isHexLetter c

/-- Numeric value of a digit string. -/
def natOfDigits (l : List Char) : Nat :=
  l.foldl (fun a c => a * 10 + (c.toNat - 48)) 0

def hexDigitVal (c : Char) : Nat :=
  if c.isDigit then c.toNat - 48 else (lowerChar c).toNat - 87

def natOfHexDigits (l : List Char) : Nat :=
  l.foldl (fun a c => a * 16 + hexDigitVal c) 0

/-- The scan of `strconv`'s `underscoreOK`: `saw` is `^` at the
start (or after a base prefix that does not count as a digit), `0`
after a digit (or base prefix), `_` after an underscore and `!`
after anything else; an underscore must sit between digits. -/
def underscoreRun (hex : Bool) : Char → List Char → Bool
  | saw, [] => saw != '_'
  | saw, c :: r =>
    if c.isDigit || (hex && isHexLetter c) then underscoreRun hex '0' r
    else if c = '_' then
      if saw = '0' then underscoreRun hex '_' r else false
    else if saw = '_' then false
    else underscoreRun hex '!' r

/-- Embedding of `strconv`'s `underscoreOK`: optional sign, optional
base prefix (which counts as a digit and selects hex digits for
`0x`), then the scan. -/
def underscoreOK (l : List Char) : Bool :=
  let l1 : List Char :=
    match l with
    | '+' :: r => r
    | '-' :: r => r
    | r => r
  match l1 with
  | '0' :: b :: r =>
    if lowerChar b = 'x' then underscoreRun true '0' r
    else if lowerChar b = 'b' ∨ lowerChar b = 'o' then underscoreRun false '0' r
    else underscoreRun false '^' l1
  | _ => underscoreRun false '^' l1

/-- An unsigned mantissa over the given digit class: `digits`,
`digits.digits`, `digits.` or `.digits` (at least one digit in
total), returning its exact value and the unconsumed rest. -/
def mantissa (digit : Char → Bool) (base : ℚ) (dval : List Char → Nat)
    (l : List Char) : Option (ℚ × List Char) :=
  let ds := l.takeWhile digit
  let r1 := l.dropWhile digit
  match r1 with
  | '.' :: r2 =>
    let fs := r2.takeWhile digit
    let r3 := r2.dropWhile digit
    if ds.isEmpty && fs.isEmpty then none
    else some ((dval ds : ℚ) + (dval fs : ℚ) / base ^ fs.length, r3)
  | _ => if ds.isEmpty then none else some ((dval ds : ℚ), r1)

/-- A decimal exponent part: optional sign then one or more digits,
consuming the whole rest. -/
def parseExpPart (l : List Char) : Option Int :=
  let p : Int × List Char :=
    match l with
    | '+' :: r => (1, r)
    | '-' :: r => (-1, r)
    | r => (1, r)
  if p.2.isEmpty then none
  else if p.2.all Char.isDigit then some (p.1 * (natOfDigits p.2 : Int)) else none

/-- The unsigned decimal forms accepted by `strconv.ParseFloat`
(after underscore removal): a decimal mantissa with an optional
`e`/`E` exponent, valued exactly over `ℚ`. -/
def parseDecCore (l : List Char) : Option ℚ :=
  match mantissa Char.isDigit 10 natOfDigits l with
  | none => none
  | some (m, rest) =>
    match rest with
    | [] => some m
    | c :: r =>
      if lowerChar c = 'e' then (parseExpPart r).map (fun ex => m * (10 : ℚ) ^ ex)
      else none

/-- The unsigned hexadecimal float forms accepted by
`strconv.ParseFloat`: `0x`/`0X`, a hex mantissa and a mandatory
`p`/`P` decimal binary exponent. -/
def parseHexCore (l : List Char) : Option ℚ :=
  match l with
  | '0' :: x :: r =>
    if lowerChar x = 'x' then
      match mantissa isHexDigitCh 16 natOfHexDigits r with
      | some (m, c :: r2) =>
        if lowerChar c = 'p' then (parseExpPart r2).map (fun ex => m * (2 : ℚ) ^ ex)
        else none
      | _ => none
    else none
  | _ => none

/-- What the retry pipeline can see of a successfully parsed
`float64`. -/
inductive GoFloat where
  | finite (q : ℚ)
  | posInf
  | negInf
  | nan
deriving DecidableEq, Repr

/-- Magnitudes at or beyond `2^1024 − 2^970` round to ±Inf in
float64, making `ParseFloat` report a range error. -/
def f64OverflowBound : ℚ := 2 ^ 1024 - 2 ^ 970

/-- Non-zero magnitudes at or below `2^−1075` (half the smallest
denormal) round to zero in float64, making `ParseFloat` report a
range error. -/
def f64UnderflowBound : ℚ := 1 / 2 ^ 1075

/-- `ParseFloat`'s special forms: optionally signed
`inf`/`infinity`, and unsigned `nan`, case-insensitively, consuming
the whole input. -/
def parseSpecial (l : List Char) : Option GoFloat :=
  if l.map lowerChar = "nan".data then some .nan
  else
    let p : Bool × List Char :=
      match l with
      | '+' :: r => (false, r)
      | '-' :: r => (true, r)
      | r => (false, r)
    if p.2.map lowerChar = "inf".data ∨ p.2.map lowerChar = "infinity".data then
      some (if p.1 then .negInf else .posInf)
    else none

/-- Keep a finite parsed value only when it is representable in
float64 without a range error. -/
def rangeFilter (q : ℚ) : Option ℚ :=
  if |q| < f64OverflowBound ∧ (q = 0 ∨ f64UnderflowBound < |q|) then some q else none

/-- The finite (non-special) part of `ParseFloat`: the underscore
check, underscore removal, optional sign, then the hex or decimal
grammar, range-filtered. -/
def parseFinite (l : List Char) : Option ℚ :=
  if underscoreOK l then
    let l2 := l.filter (fun c => c != '_')
    match l2 with
    | '+' :: r =>
      (((parseHexCore r).orElse (fun _ => parseDecCore r)).bind rangeFilter)
    | '-' :: r =>
      ((((parseHexCore r).orElse (fun _ => parseDecCore r)).bind rangeFilter)).map
        (fun q => -q)
    | r =>
      (((parseHexCore r).orElse (fun _ => parseDecCore r)).bind rangeFilter)
  else none

/-- Model of `strconv.ParseFloat` as used here, where the caller
only tests the error for nil-ness: `some` is a parse with `err ==
nil` (a finite exact value, or ±Inf / NaN from the literal special
forms); `none` covers both syntax errors and range errors
(overflow and underflow), since either makes `err != nil`.  Finite
values are exact rationals: the ±½ ULP rounding of in-range values
to the nearest float64 is idealized away. -/
def parseGoFloat (s : String) : Option GoFloat :=
  match parseSpecial s.data with
  | some f => some f
  | none => (parseFinite s.data).map GoFloat.finite

/-- The body of `parseRetryAfter` past the empty check and the trim:
seconds first (`math.Ceil`-inged, converted to nanoseconds), else an
HTTP-date, with a negative `time.Until` clamped to zero, else zero.
`httpDate` abstracts the chained `time.Parse` attempts over the
RFC 1123, RFC 850 and asctime layouts, returning the parsed absolute
time in nanoseconds; `now` is the current wall-clock time.  A parsed
`+Inf` passes the `secs >= 0` test and flows into Go's
implementation-dependent float-to-integer overflow conversion,
abstracted as `infDur`. -/
def retryAfterBody (httpDate : String → Option Int) (now infDur : Int)
    (v : String) : Int :=
  let dately : Int :=
    match httpDate v with
    | some t => if t - now < 0 then 0 else t - now
    | none => 0
  match parseGoFloat v with
  | some (.finite secs) => if 0 ≤ secs then ⌈secs⌉ * 1000000000 else dately
  | some .posInf => infDur
  | some .negInf => dately
  | some .nan => dately
  | none => dately

/-- Embedding of `parseRetryAfter`: empty input is zero; otherwise
the value is trimmed and interpreted as seconds or an HTTP-date. -/
def parseRetryAfter (httpDate : String → Option Int) (now infDur : Int)
    (val : String) : Int :=
  if val = "" then 0 else retryAfterBody httpDate now infDur (trimSpace val)

theorem dropWhile_rdropWhile_dropWhile (p : Char → Bool) (l : List Char) :
    List.dropWhile p (List.rdropWhile p (List.dropWhile p l))
      = List.rdropWhile p (List.dropWhile p l) := by
  cases hd : List.rdropWhile p (List.dropWhile p l) with
  | nil => simp
  | cons c r =>
    have hpre : List.rdropWhile p (List.dropWhile p l) <+: List.dropWhile p l :=
      List.rdropWhile_prefix p _
    rw [hd] at hpre
    obtain ⟨t, ht⟩ := hpre
    have h2 : List.dropWhile p l = c :: (r ++ t) := ht.symm
    have hc : p c = false := by
      have h3 := List.head?_dropWhile_not p l
      rw [h2] at h3
      simpa using h3
    rw [List.dropWhile_cons, hc]
    simp

/-- Trimming is idempotent. -/
theorem trimSpace_idem (s : String) : trimSpace (trimSpace s) = trimSpace s := by
  show String.mk _ = String.mk _
  congr 1
  show List.rdropWhile isSpaceChar
      (List.dropWhile isSpaceChar
        (List.rdropWhile isSpaceChar (s.data.dropWhile isSpaceChar)))
    = List.rdropWhile isSpaceChar (s.data.dropWhile isSpaceChar)
  rw [dropWhile_rdropWhile_dropWhile, List.rdropWhile_idempotent]

theorem parseGoFloat_empty : parseGoFloat "" = none := rfl

theorem trimSpace_empty : trimSpace "" = "" := rfl

/-- C6: Retry-After parsing — for every date parser that rejects the
empty string, every current time and every value of the
implementation-dependent infinity conversion — is trim-insensitive;
yields zero on empty input; yields zero when the float parse
produces no usable value (syntax or range error) and no date
parses; converts a non-negative finite parsed seconds value to its
ceiling in whole seconds; and yields zero for an HTTP-date at or
before the current time. -/
theorem parseRetryAfter_spec (hd : String → Option Int) (now infDur : Int)
    (hde : hd "" = none) :
    (∀ s, parseRetryAfter hd now infDur s
      = parseRetryAfter hd now infDur (trimSpace s)) ∧
    (parseRetryAfter hd now infDur "" = 0) ∧
    (∀ s, parseGoFloat (trimSpace s) = none → hd (trimSpace s) = none →
      parseRetryAfter hd now infDur s = 0) ∧
    (∀ s q, parseGoFloat (trimSpace s) = some (.finite q) → 0 ≤ q →
      parseRetryAfter hd now infDur s = ⌈q⌉ * 1000000000) ∧
    (∀ s t, parseGoFloat (trimSpace s) = none → hd (trimSpace s) = some t →
      t ≤ now → parseRetryAfter hd now infDur s = 0) := by
  have hbody_empty : retryAfterBody hd now infDur "" = 0 := by
    unfold retryAfterBody
    rw [hde, parseGoFloat_empty]
  refine ⟨?_, rfl, ?_, ?_, ?_⟩
  · intro s
    by_cases hs : s = ""
    · subst hs
      rw [trimSpace_empty]
    · unfold parseRetryAfter
      rw [if_neg hs]
      by_cases hts : trimSpace s = ""
      · rw [if_pos hts, hts, hbody_empty]
      · rw [if_neg hts, trimSpace_idem]
  · intro s hd1 hd2
    by_cases hs : s = ""
    · subst hs; rfl
    · unfold parseRetryAfter retryAfterBody
      rw [if_neg hs, hd1, hd2]
  · intro s q hq hq0
    have hs : s ≠ "" := by
      intro h
      subst h
      rw [trimSpace_empty, parseGoFloat_empty] at hq
      exact Option.noConfusion hq
    unfold parseRetryAfter retryAfterBody
    rw [if_neg hs, hq]
    simp only
    rw [if_pos hq0]
  · intro s t hd1 hd2 hle
    by_cases hs : s = ""
    · subst hs; rfl
    · unfold parseRetryAfter retryAfterBody
      rw [if_neg hs, hd1, hd2]
      simp only
      rcases lt_or_eq_of_le (sub_nonpos.mpr hle) with h | h
      · rw [if_pos h]
      · rw [h]
        norm_num

/-- A date parser that never matches, for the witness. -/
def hdNone : String → Option Int := fun _ => none

/-- Witness for C6: concrete instances of each conjunct with no
date parser matching, `now = 0` and `infDur = 0` — including a
fractional-seconds value and an exponent form accepted by
`ParseFloat`. -/
theorem parseRetryAfter_spec_witness :
    parseRetryAfter hdNone 0 0 "2.5" = 3 * 1000000000 ∧
    parseRetryAfter hdNone 0 0 "1e3" = 1000 * 1000000000 ∧
    parseRetryAfter hdNone 0 0 "" = 0 ∧
    parseRetryAfter hdNone 0 0 "garbage" = 0 ∧
    parseRetryAfter hdNone 0 0 " 7 " = parseRetryAfter hdNone 0 0 (trimSpace " 7 ") := by
  have h := parseRetryAfter_spec hdNone 0 0 rfl
  refine ⟨?_, ?_, h.2.1, ?_, h.1 " 7 "⟩
  · have hval : ((natOfDigits ['2'] : ℚ) +
        (natOfDigits ['5'] : ℚ) / 10 ^ (['5'] : List Char).length) = 5/2 := by
      norm_num [natOfDigits, show ('2').toNat = 50 from rfl,
        show ('5').toNat = 53 from rfl]
    have hrf : rangeFilter (5/2 : ℚ) = some (5/2 : ℚ) := by
      unfold rangeFilter
      rw [if_pos ?_]
      constructor
      · rw [abs_of_nonneg (by norm_num)]
        unfold f64OverflowBound
        norm_num
      · right
        rw [abs_of_nonneg (by norm_num)]
        unfold f64UnderflowBound
        norm_num
    have hp : parseGoFloat (trimSpace "2.5") = some (.finite (5/2 : ℚ)) := by
      show (parseFinite "2.5".data).map GoFloat.finite = some (.finite (5/2 : ℚ))
      have hstep : parseFinite "2.5".data
          = rangeFilter ((natOfDigits ['2'] : ℚ) +
              (natOfDigits ['5'] : ℚ) / 10 ^ (['5'] : List Char).length) := rfl
      rw [hstep, hval, hrf]
      rfl
    have h4 := h.2.2.2.1 "2.5" (5/2) hp (by norm_num)
    have hc : (⌈(5 : ℚ)/2⌉ : ℤ) = 3 := Int.ceil_eq_iff.mpr (by norm_num)
    rw [h4, hc]
  · have hval : ((natOfDigits ['1'] : ℚ) * (10 : ℚ) ^ ((1 : Int) * (natOfDigits ['3'] : Int)))
        = 1000 := by
      norm_num [natOfDigits, show ('1').toNat = 49 from rfl,
        show ('3').toNat = 51 from rfl]
    have hrf : rangeFilter (1000 : ℚ) = some (1000 : ℚ) := by
      unfold rangeFilter
      rw [if_pos ?_]
      constructor
      · rw [abs_of_nonneg (by norm_num)]
        unfold f64OverflowBound
        norm_num
      · right
        rw [abs_of_nonneg (by norm_num)]
        unfold f64UnderflowBound
        norm_num
    have hp : parseGoFloat (trimSpace "1e3") = some (.finite (1000 : ℚ)) := by
      show (parseFinite "1e3".data).map GoFloat.finite = some (.finite (1000 : ℚ))
      have hstep : parseFinite "1e3".data
          = rangeFilter ((natOfDigits ['1'] : ℚ) *
              (10 : ℚ) ^ ((1 : Int) * (natOfDigits ['3'] : Int))) := rfl
      rw [hstep, hval, hrf]
      rfl
    have h4 := h.2.2.2.1 "1e3" 1000 hp (by norm_num)
    have hc : (⌈(1000 : ℚ)⌉ : ℤ) = 1000 := Int.ceil_eq_iff.mpr (by norm_num)
    rw [h4, hc]
  · have hg : parseGoFloat (trimSpace "garbage") = none := rfl
    exact h.2.2.1 "garbage" hg rfl

/-! ## The attempt loop of `Client.Do` and its counters -/

/-- The three `Client` counters.  In the source they are wrapping
`uint64` atomics; a single execution adds only small deltas, and the
abstract monotonic counters are modelled as `Nat`. -/
structure Stats where
  totalRequests : Nat
  totalErrors : Nat
  rateLimited : Nat
deriving DecidableEq, Repr

def stats0 : Stats := ⟨0, 0, 0⟩

def Stats.add (a b : Stats) : Stats :=
  ⟨a.totalRequests + b.totalRequests, a.totalErrors + b.totalErrors,
    a.rateLimited + b.rateLimited⟩

/-- `c.totalErrors.Add(1)` -/
def addErr (s : Stats) : Stats := { s with totalErrors := s.totalErrors + 1 }

/-- `c.rateLimited.Add(1)` -/
def addRL (s : Stats) : Stats := { s with rateLimited := s.rateLimited + 1 }

/-- The errors `Do` can produce, one constructor per `return` /
`fmt.Errorf` site.  `nilError` stands for the Go `nil` error inside
the `%w` wrap of the exhaustion message (the only place where a nil
`lastErr` can be wrapped). -/
inductive RError where
  /-- Go `nil`, as the wrapped `lastErr` when no attempt set one -/
  | nilError
  /-- `resilient: rate limit wait: <ctx error>` -/
  | rateWaitCancelled
  /-- `ctx.Err()` surfaced from the backoff select -/
  | ctxCancelled
  /-- `resilient: read request body: <err>` -/
  | readRequestBody
  /-- `resilient: http request: <err>` -/
  | transport
  /-- `resilient: read response: <err>` -/
  | readResponse
  /-- `resilient: HTTP <code> on <method> <url>` (retryable branch) -/
  | retryableStatus (status : Int)
  /-- `resilient: HTTP <code>: <body>` (terminal ≥400 branch) -/
  | httpStatus (status : Int)
  /-- `resilient: max retries (<n>) exceeded: <lastErr>` -/
  | maxRetriesExceeded (maxRetries : Int) (last : RError)
deriving DecidableEq, Repr

/-- The `([]byte, int, error)` triple returned by `Do`. -/
structure DoResult where
  body : Option (List Nat)
  status : Int
  error : Option RError
deriving DecidableEq, Repr

/-- What the transport does on one attempt: fail, or deliver a
response with a status, body bytes and a possible body-read
failure. -/
inductive AttemptEvent where
  | transportError
  | response (status : Int) (body : List Nat) (readErr : Bool)
deriving DecidableEq, Repr

/-- The external world of one `Do` call: the initial limiter wait,
the request-body capture, and per-attempt transport behaviour and
cancellations (of the backoff sleep and of the re-pace wait). -/
structure Env where
  initialWaitCancelled : Bool
  bodyPresent : Bool
  bodyReadErr : Bool
  attempts : Nat → AttemptEvent
  backoffCancelled : Nat → Bool
  repaceCancelled : Nat → Bool

/-- The `for attempt := 0; attempt <= maxRetries` loop of `Do`,
with `fuel` counting the remaining iterations.  Each iteration:
backoff-and-re-pace for attempt > 0 (either wait may be cancelled),
transport round trip, response body read, then classification
exactly as in the source.  The `fuel = 0` base case is the
post-loop `max retries exceeded` return. -/
def doLoop (cfg : Config) (env : Env) :
    Nat → Nat → Int → RError → Stats → DoResult × Stats
  | 0, _, lastStatus, lastErr, s =>
    (⟨none, lastStatus, some (.maxRetriesExceeded cfg.maxRetries lastErr)⟩, s)
  | fuel + 1, attempt, lastStatus, lastErr, s =>
    if 0 < attempt ∧ env.backoffCancelled attempt = true then
      (⟨none, 0, some .ctxCancelled⟩, s)
    else if 0 < attempt ∧ env.repaceCancelled attempt = true then
      (⟨none, 0, some .rateWaitCancelled⟩, s)
    else
      match env.attempts attempt with
      | .transportError =>
        let s := addErr s
        if shouldRetry cfg attempt none (some ()) then
          doLoop cfg env fuel (attempt + 1) lastStatus .transport s
        else
          (⟨none, 0, some .transport⟩, s)
      | .response st body readErr =>
        if readErr then
          (⟨none, st, some .readResponse⟩, addErr s)
        else
          if shouldRetry cfg attempt (some ⟨st⟩) none then
            let s := if st = 429 then addRL s else s
            let s := addErr s
            doLoop cfg env fuel (attempt + 1) st (.retryableStatus st) s
          else if 400 ≤ st then
            let s := addErr s
            let s := if st = 429 then addRL s else s
            (⟨some (body.take cfg.maxResponseSize.toNat), st, some (.httpStatus st)⟩, s)
          else
            (⟨some (body.take cfg.maxResponseSize.toNat), st, none⟩, s)

/-- Embedding of `Client.Do`: initial limiter wait (a cancellation
returns before anything is counted), `totalReqs.Add(1)`, request
body capture, then the attempt loop, which runs `maxRetries + 1`
times unless it returns early. -/
def doRun (cfg : Config) (env : Env) : DoResult × Stats :=
  if env.initialWaitCancelled then
    (⟨none, 0, some .rateWaitCancelled⟩, stats0)
  else
    let s : Stats := ⟨1, 0, 0⟩
    if env.bodyPresent = true ∧ env.bodyReadErr = true then
      (⟨none, 0, some .readRequestBody⟩, s)
    else
      doLoop cfg env (cfg.maxRetries + 1).toNat 0 0 .nilError s

/-- Counters accumulated over a sequence of logical calls. -/
def statsAfter (cfg : Config) (envs : List Env) : Stats :=
  envs.foldl (fun s e => Stats.add s (doRun cfg e).2) stats0

theorem totalRequests_addErr (s : Stats) :
    (addErr s).totalRequests = s.totalRequests := rfl

theorem totalRequests_addRL (s : Stats) :
    (addRL s).totalRequests = s.totalRequests := rfl

theorem totalRequests_rlIte (st : Int) (s : Stats) :
    (if st = 429 then addRL s else s).totalRequests = s.totalRequests := by
  split <;> rfl

/-- The attempt loop never touches `totalRequests`. -/
theorem doLoop_totalRequests (cfg : Config) (env : Env) :
    ∀ (fuel attempt : Nat) (ls : Int) (le : RError) (s : Stats),
      ((doLoop cfg env fuel attempt ls le s).2).totalRequests = s.totalRequests := by
  intro fuel
  induction fuel with
  | zero => intro _ _ _ _; rfl
  | succ f ih =>
    intro attempt ls le s
    unfold doLoop
    split
    · rfl
    split
    · rfl
    split
    · split
      · rw [ih, totalRequests_addErr]
      · rfl
    · split
      · rfl
      split
      · rw [ih, totalRequests_addErr, totalRequests_rlIte]
      split
      · rw [totalRequests_rlIte, totalRequests_addErr]
      · rfl

/-- One `Do` call adds one logical request iff it passed the
initial pace. -/
theorem doRun_totalRequests (cfg : Config) (env : Env) :
    ((doRun cfg env).2).totalRequests
      = if env.initialWaitCancelled then 0 else 1 := by
  unfold doRun
  by_cases h : env.initialWaitCancelled
  · rw [if_pos h, if_pos h]; rfl
  · rw [if_neg h, if_neg h]
    by_cases h2 : env.bodyPresent = true ∧ env.bodyReadErr = true
    · rw [if_pos h2]
    · rw [if_neg h2, doLoop_totalRequests]

theorem statsAfter_totalRequests_aux (cfg : Config) :
    ∀ (envs : List Env) (s : Stats),
      ((envs.foldl (fun s e => Stats.add s (doRun cfg e).2) s)).totalRequests
        = s.totalRequests + (envs.filter (fun e => !e.initialWaitCancelled)).length := by
  intro envs
  induction envs with
  | nil => intro s; simp
  | cons e t ih =>
    intro s
    simp only [List.foldl_cons, List.filter_cons]
    rw [ih]
    by_cases h : e.initialWaitCancelled
    · simp [h, Stats.add, doRun_totalRequests]
    · simp only [Bool.not_eq_true] at h
      simp [h, Stats.add, doRun_totalRequests, List.length_cons]
      omega

/-- C7: across every sequence of logical calls, `totalRequests`
equals the number of `Do` invocations whose initial limiter wait was
not cancelled; and a call whose initial wait is cancelled returns
status 0 with a rate-limit-wait error and increments no counter. -/
theorem totalRequests_counts_paced (cfg : Config) :
    (∀ envs : List Env, (statsAfter cfg envs).totalRequests
      = (envs.filter (fun e => !e.initialWaitCancelled)).length) ∧
    (∀ env : Env, env.initialWaitCancelled = true →
      doRun cfg env = (⟨none, 0, some .rateWaitCancelled⟩, stats0)) := by
  constructor
  · intro envs
    unfold statsAfter
    rw [statsAfter_totalRequests_aux]
    simp [stats0]
  · intro env h
    unfold doRun
    rw [if_pos h]

/-- A call whose initial wait is cancelled, and one that reaches a
terminal 200 at once. -/
def envCancelled : Env :=
  ⟨true, false, false, fun _ => .response 200 [] false, fun _ => false, fun _ => false⟩

def envPaced : Env :=
  ⟨false, false, false, fun _ => .response 200 [] false, fun _ => false, fun _ => false⟩

/-- Witness for C7: of two calls, one cancelled during the initial
pace, only one is counted. -/
theorem totalRequests_counts_paced_witness :
    (statsAfter defaultConfig [envPaced, envCancelled]).totalRequests = 1 ∧
    doRun defaultConfig envCancelled = (⟨none, 0, some .rateWaitCancelled⟩, stats0) :=
  ⟨((totalRequests_counts_paced defaultConfig).1 [envPaced, envCancelled]).trans (by decide),
   (totalRequests_counts_paced defaultConfig).2 envCancelled rfl⟩

theorem rl_le_addErr (s : Stats) (h : s.rateLimited ≤ s.totalErrors) :
    (addErr s).rateLimited ≤ (addErr s).totalErrors := by
  simp only [addErr]
  omega

theorem rl_le_addErr_rlIte (st : Int) (s : Stats) (h : s.rateLimited ≤ s.totalErrors) :
    (addErr (if st = 429 then addRL s else s)).rateLimited
      ≤ (addErr (if st = 429 then addRL s else s)).totalErrors := by
  split <;> simp only [addErr, addRL] <;> omega

theorem rl_le_rlIte_addErr (st : Int) (s : Stats) (h : s.rateLimited ≤ s.totalErrors) :
    (if st = 429 then addRL (addErr s) else addErr s).rateLimited
      ≤ (if st = 429 then addRL (addErr s) else addErr s).totalErrors := by
  split <;> simp only [addErr, addRL] <;> omega

/-- Each increment of `rateLimited` inside the attempt loop comes
with an increment of `totalErrors` in the same attempt, so the loop
preserves `rateLimited ≤ totalErrors`. -/
theorem doLoop_rl_le (cfg : Config) (env : Env) :
    ∀ (fuel attempt : Nat) (ls : Int) (le : RError) (s : Stats),
      s.rateLimited ≤ s.totalErrors →
      ((doLoop cfg env fuel attempt ls le s).2).rateLimited
        ≤ ((doLoop cfg env fuel attempt ls le s).2).totalErrors := by
  intro fuel
  induction fuel with
  | zero => intro _ _ _ s h; exact h
  | succ f ih =>
    intro attempt ls le s h
    unfold doLoop
    split
    · exact h
    split
    · exact h
    split
    · split
      · exact ih _ _ _ _ (rl_le_addErr s h)
      · exact rl_le_addErr s h
    · split
      · exact rl_le_addErr s h
      split
      · exact ih _ _ _ _ (rl_le_addErr_rlIte _ s h)
      split
      · exact rl_le_rlIte_addErr _ s h
      · exact h

/-- C8: after every sequence of logical calls, the `rateLimited`
counter is at most the `totalErrors` counter. -/
theorem rateLimited_le_totalErrors (cfg : Config) (envs : List Env) :
    (statsAfter cfg envs).rateLimited ≤ (statsAfter cfg envs).totalErrors := by
  have hone : ∀ env : Env,
      ((doRun cfg env).2).rateLimited ≤ ((doRun cfg env).2).totalErrors := by
    intro env
    unfold doRun
    by_cases h1 : env.initialWaitCancelled
    · rw [if_pos h1]; exact Nat.le_refl 0
    · rw [if_neg h1]
      by_cases h2 : env.bodyPresent = true ∧ env.bodyReadErr = true
      · rw [if_pos h2]
      · rw [if_neg h2]
        exact doLoop_rl_le cfg env _ _ _ _ _ (Nat.le_refl 0)
  unfold statsAfter
  suffices hgen : ∀ (l : List Env) (s : Stats), s.rateLimited ≤ s.totalErrors →
      ((l.foldl (fun s e => Stats.add s (doRun cfg e).2) s)).rateLimited
        ≤ ((l.foldl (fun s e => Stats.add s (doRun cfg e).2) s)).totalErrors by
    exact hgen envs stats0 (Nat.le_refl 0)
  intro l
  induction l with
  | nil => intro s h; exact h
  | cons e t ih =>
    intro s h
    simp only [List.foldl_cons]
    refine ih _ ?_
    have h2 := hone e
    simp only [Stats.add]
    omega

/-- Recognises the post-loop `max retries exceeded` error. -/
def isMaxRetriesError : Option RError → Bool
  | some (.maxRetriesExceeded _ _) => true
  | _ => false

/-- A client with `maxRetries = 2` and a transport that answers 429
with body bytes `[111, 107]` on every attempt. -/
def cfgC2 : Config := { defaultConfig with maxRetries := 2 }

def envC2 : Env :=
  ⟨false, false, false, fun _ => .response 429 [111, 107] false,
    fun _ => false, fun _ => false⟩

/-- C2 counterexample: with `maxRetries = 2` and every attempt
observing the retryable status 429, the budget is exhausted, yet `Do`
returns the last response's body (not null) and a terminal
HTTP-status error — not a max-retries-exceeded error. -/
theorem do_exhaustion_counterexample :
    cfgC2.maxRetries = 2 ∧
    (∀ i, i ≤ 2 → envC2.attempts i = AttemptEvent.response 429 [111, 107] false) ∧
    cfgC2.retryableStatus 429 = true ∧
    (doRun cfgC2 envC2).1 = ⟨some [111, 107], 429, some (RError.httpStatus 429)⟩ ∧
    (doRun cfgC2 envC2).1.body ≠ none ∧
    isMaxRetriesError (doRun cfgC2 envC2).1.error = false := by
  decide

/-- Under the default policy, when every attempt up to and including
the final one observes a retryable-status response, every iteration
before the last continues and the last falls through `shouldRetry`
(attempt = maxRetries) into the ≥400 branch. -/
theorem doLoop_all_retryable (cfg : Config) (env : Env) (st : Nat → Int)
    (bd : Nat → List Nat) (n : Nat)
    (hmr : cfg.maxRetries = (n : Int))
    (hpol : cfg.retryPolicy = none)
    (hatt : ∀ i, i ≤ n → env.attempts i = AttemptEvent.response (st i) (bd i) false)
    (hretry : ∀ i, i ≤ n → cfg.retryableStatus (st i) = true)
    (hbc : ∀ i, i ≤ n → env.backoffCancelled i = false)
    (hrc : ∀ i, i ≤ n → env.repaceCancelled i = false)
    (hlast : 400 ≤ st n) :
    ∀ (f attempt : Nat), attempt + f = n →
      ∀ (ls : Int) (le : RError) (s : Stats),
      (doLoop cfg env (f + 1) attempt ls le s).1 =
        ⟨some ((bd n).take cfg.maxResponseSize.toNat), st n,
          some (.httpStatus (st n))⟩ := by
  intro f
  induction f with
  | zero =>
    intro attempt hat ls le s
    have han : attempt = n := by omega
    subst han
    have hSR : shouldRetry cfg (attempt : Int) (some ⟨st attempt⟩) none = false := by
      unfold shouldRetry
      rw [hmr, if_pos le_rfl]
    unfold doLoop
    rw [if_neg (by simp [hbc attempt le_rfl]),
        if_neg (by simp [hrc attempt le_rfl])]
    simp only [hatt attempt le_rfl, hSR, Bool.false_eq_true, if_false,
      if_pos hlast]
  | succ f ih =>
    intro attempt hat ls le s
    have hle : attempt ≤ n := by omega
    have hlt : attempt < n := by omega
    have hSR : shouldRetry cfg (attempt : Int) (some ⟨st attempt⟩) none = true := by
      unfold shouldRetry
      rw [hmr, if_neg (by exact_mod_cast Nat.not_le.mpr hlt), hpol]
      simp [hretry attempt hle]
    show (doLoop cfg env (f + 1 + 1) attempt ls le s).1 = _
    unfold doLoop
    rw [if_neg (by simp [hbc attempt hle]),
        if_neg (by simp [hrc attempt hle])]
    simp only [hatt attempt hle, hSR, Bool.false_eq_true, if_false, if_true]
    exact ih (attempt + 1) (by omega) _ _ _

/-- C2 amended: when every attempt of a `Do` call observes a
retryable-status response and the retry budget is exhausted, the
final attempt's retry decision is false (attempt = maxRetries), so
the call returns through the terminal ≥400 branch: the last
response's (capped) body, the status observed on the last attempt —
which is not zero — and a terminal HTTP-status error that reports
that status.  (The post-loop max-retries-exceeded return is not the
path taken: it is unreachable for `maxRetries ≥ 0`.) -/
theorem do_exhaustion_terminal (cfg : Config) (env : Env) (st : Nat → Int)
    (bd : Nat → List Nat) (n : Nat)
    (hmr : cfg.maxRetries = (n : Int))
    (hpol : cfg.retryPolicy = none)
    (hiw : env.initialWaitCancelled = false)
    (hbody : ¬ (env.bodyPresent = true ∧ env.bodyReadErr = true))
    (hatt : ∀ i, i ≤ n → env.attempts i = AttemptEvent.response (st i) (bd i) false)
    (hretry : ∀ i, i ≤ n → cfg.retryableStatus (st i) = true)
    (hbc : ∀ i, i ≤ n → env.backoffCancelled i = false)
    (hrc : ∀ i, i ≤ n → env.repaceCancelled i = false)
    (hlast : 400 ≤ st n) :
    (doRun cfg env).1 =
      ⟨some ((bd n).take cfg.maxResponseSize.toNat), st n,
        some (.httpStatus (st n))⟩ ∧
    (doRun cfg env).1.status ≠ 0 := by
  have hfuel : (cfg.maxRetries + 1).toNat = n + 1 := by
    rw [hmr]; omega
  have h1 : (doRun cfg env).1 =
      ⟨some ((bd n).take cfg.maxResponseSize.toNat), st n,
        some (.httpStatus (st n))⟩ := by
    unfold doRun
    rw [if_neg (by simp [hiw]), if_neg hbody, hfuel]
    exact doLoop_all_retryable cfg env st bd n hmr hpol hatt hretry hbc hrc hlast
      n 0 (by omega) 0 .nilError ⟨1, 0, 0⟩
  refine ⟨h1, ?_⟩
  rw [h1]
  simp only
  omega

def envC2w : Env :=
  ⟨false, false, false, fun _ => .response 429 [104, 105] false,
    fun _ => false, fun _ => false⟩

/-- Witness for the amended C2: default client (maxRetries 3),
every attempt a 429 with body `[104, 105]`. -/
theorem do_exhaustion_terminal_witness :
    (doRun defaultConfig envC2w).1 =
      ⟨some (([104, 105] : List Nat).take defaultConfig.maxResponseSize.toNat), 429,
        some (.httpStatus 429)⟩ ∧
    (doRun defaultConfig envC2w).1.status ≠ 0 :=
  do_exhaustion_terminal defaultConfig envC2w (fun _ => 429) (fun _ => [104, 105]) 3
    rfl rfl rfl (by simp [envC2w]) (fun _ _ => rfl) (fun _ _ => rfl)
    (fun _ _ => rfl) (fun _ _ => rfl) (by norm_num)

/-- A client with `maxRetries = 0` whose retryable set is `{200}`,
and a transport answering 200. -/
def cfgC9 : Config :=
  { defaultConfig with maxRetries := 0, retryableStatus := fun s => s == 200 }

def envC9 : Env :=
  ⟨false, false, false, fun _ => .response 200 [42] false,
    fun _ => false, fun _ => false⟩

/-- C9 counterexample: with `maxRetries = 0` and the observed status
200 a member of the configured retryable set, `Do` does not fall
into the ≥400 branch: it returns the body with no error at all. -/
theorem maxRetriesZero_counterexample :
    cfgC9.maxRetries = 0 ∧
    cfgC9.retryableStatus 200 = true ∧
    envC9.attempts 0 = AttemptEvent.response 200 [42] false ∧
    (doRun cfgC9 envC9).1 = ⟨some [42], 200, none⟩ ∧
    (doRun cfgC9 envC9).1.error = none := by
  decide

/-- C9 amended: with `maxRetries = 0`, when the single attempt
observes a status that is in the retryable set *and is ≥ 400* (as
are the default retryable statuses 429 and 503), the retry decision
is false (attempt ≥ maxRetries), execution falls through to the ≥400
branch, and `Do` returns the (capped) response body, that status and
a terminal HTTP-status error, with no retry attempted: exactly one
attempt ran, counted once with one error. -/
theorem maxRetriesZero_terminal (cfg : Config) (env : Env) (st : Int) (bd : List Nat)
    (hmr : cfg.maxRetries = 0)
    (hiw : env.initialWaitCancelled = false)
    (hbody : ¬ (env.bodyPresent = true ∧ env.bodyReadErr = true))
    (hatt : env.attempts 0 = AttemptEvent.response st bd false)
    (hretry : cfg.retryableStatus st = true)
    (hst : 400 ≤ st) :
    shouldRetry cfg 0 (some ⟨st⟩) none = false ∧
    doRun cfg env =
      (⟨some (bd.take cfg.maxResponseSize.toNat), st, some (.httpStatus st)⟩,
        ⟨1, 1, if st = 429 then 1 else 0⟩) := by
  have hSR : shouldRetry cfg 0 (some ⟨st⟩) none = false := by
    unfold shouldRetry
    rw [hmr, if_pos le_rfl]
  refine ⟨hSR, ?_⟩
  have hfuel : (cfg.maxRetries + 1).toNat = 1 := by
    rw [hmr]; rfl
  unfold doRun
  rw [if_neg (by simp [hiw]), if_neg hbody, hfuel]
  unfold doLoop
  rw [if_neg (by simp), if_neg (by simp)]
  have hSR0 : shouldRetry cfg ((0 : Nat) : Int) (some ⟨st⟩) none = false := hSR
  simp only [hatt, hSR0, Bool.false_eq_true, if_false, if_pos hst]
  have hstats : (if st = 429 then addRL (addErr ⟨1, 0, 0⟩) else addErr ⟨1, 0, 0⟩)
      = (⟨1, 1, if st = 429 then 1 else 0⟩ : Stats) := by
    split <;> rfl
  rw [hstats]

def cfgC9w : Config := { defaultConfig with maxRetries := 0 }

def envC9w : Env :=
  ⟨false, false, false, fun _ => .response 503 [1] false,
    fun _ => false, fun _ => false⟩

/-- Witness for the amended C9 at a 503 with `maxRetries = 0`. -/
theorem maxRetriesZero_terminal_witness :
    shouldRetry cfgC9w 0 (some ⟨503⟩) none = false ∧
    doRun cfgC9w envC9w =
      (⟨some (([1] : List Nat).take cfgC9w.maxResponseSize.toNat), 503,
        some (.httpStatus 503)⟩, ⟨1, 1, if (503 : Int) = 429 then 1 else 0⟩) :=
  maxRetriesZero_terminal cfgC9w envC9w 503 [1] rfl rfl (by simp [envC9w]) rfl rfl
    (by norm_num)

/-- C10: `WithRateLimit(rps, burst)` always stores `rps`, stores
`burst` only when positive (keeping the previous burst — default 1 —
otherwise), so it never turns a positive configured burst into a
non-positive bucket capacity. -/
theorem withRateLimit_spec (rps : ℚ) (b : Int) (c : Config) :
    (withRateLimit rps b c).rps = rps ∧
    (0 < b → (withRateLimit rps b c).burst = b) ∧
    (b ≤ 0 → (withRateLimit rps b c).burst = c.burst) ∧
    (0 < c.burst → 0 < (withRateLimit rps b c).burst) ∧
    defaultConfig.burst = 1 := by
  refine ⟨rfl, ?_, ?_, ?_, rfl⟩
  · intro h
    simp [withRateLimit, h]
  · intro h
    simp [withRateLimit, not_lt.mpr h]
  · intro h
    unfold withRateLimit
    simp only
    split
    · assumption
    · exact h

/-- Witness for C10: a non-positive burst argument keeps the default
burst 1, which is positive. -/
theorem withRateLimit_spec_witness :
    (withRateLimit 5 0 defaultConfig).rps = 5 ∧
    (withRateLimit 5 0 defaultConfig).burst = defaultConfig.burst ∧
    0 < (withRateLimit 5 0 defaultConfig).burst :=
  ⟨(withRateLimit_spec 5 0 defaultConfig).1,
   (withRateLimit_spec 5 0 defaultConfig).2.2.1 (by norm_num),
   (withRateLimit_spec 5 0 defaultConfig).2.2.2.1 (by norm_num [defaultConfig])⟩

end Resilient
